import Mathlib

/-!
Shallow embedding of the sql-helper query builder (src/sql.py) and proofs
about the spec's claims on it.

Modelling conventions:
* Python values that flow through the comparison / clause APIs are either
  numbers or strings; they are modelled by `SqlValue`.
* The shared mutable state (the `SingletoneData` object holding
  `last_method` and `data`, together with the builder's `sql` fragment list
  and `select_columns`) is modelled by the record `Ctx`, threaded
  explicitly.  The unused `added` set of `SingletoneData` is omitted.
* A Python exception is modelled by `Except PyErr`.  In the source, every
  raise happens before any mutation of the shared state in the same call,
  so returning `.error e` (discarding nothing, since the input context is
  still in the caller's hands) is a faithful rendering of
  "raise before the body executes".
-/

/-- A run-time value crossing the builder API: a Python number or string. -/
inductive SqlValue where
  | VInt : Int → SqlValue
  | VStr : String → SqlValue
deriving DecidableEq, Repr

/-- Kind of a column, corresponding to the three `Column` subclasses
`IntegerColumn`, `StringColumn`, `DateTimeColumn` in src/sql.py. -/
inductive ColKind where
  | int | text | datetime
deriving DecidableEq, Repr

/-- A column after `MetaTable` registration: it carries its owning table's
class name (`table_name`, assigned un-lowercased from the class name) and
its own attribute name (`column_name`). -/
structure Column where
  table : String
  name : String
  kind : ColKind
deriving DecidableEq, Repr

/-- A table descriptor: the name `Table.get_name` computes (the Python
class name, lowercased once and for all) and the registered columns (the
`all` list; its order in Python 2 is the dict order, which the claims do
not depend on). -/
structure Table where
  name : String
  cols : List Column
deriving DecidableEq, Repr

/-- `Table.get_name` from src/sql.py: the lowercased class name, stored
precomputed in `Table.name`. -/
def Table.getName (t : Table) : String := t.name

/-- The right-hand operand of a comparison: a literal or another column. -/
inductive Operand where
  | lit : SqlValue → Operand
  | col : Column → Operand
deriving DecidableEq, Repr

/-- Python exceptions that the embedded code can raise. -/
inductive PyErr where
  | invalidType
  | invalidOrder
  | attributeError
  | typeError
deriving DecidableEq, Repr

/-- The shared builder state: `SingletoneData.last_method`,
`SingletoneData.data` (bound parameters), the builder's `sql` fragment
list, and `select_columns`. -/
structure Ctx where
  lastMethod : String
  data : List SqlValue
  sql : List String
  selectCols : List String
deriving DecidableEq, Repr

/-- The initial shared state: `last_method` is the empty string, no data,
no fragments (`SingletoneData.__init__` and `SqlBuilder.__init__`). -/
def initCtx : Ctx := ⟨"", [], [], []⟩

/-- `table_name + '.' + column_name`, the qualified reference rendered by
the comparison operators. -/
def colRef (c : Column) : String := c.table ++ "." ++ c.name

/-- How a comparison turns its right operand into the value stored in
`data` (or inlined): a `Column` operand is rendered to its qualified
reference string, a literal passes through
(`if isinstance(right, Column): right = table_name + '.' + column_name`). -/
def renderOperand : Operand → SqlValue
  | .col c2 => .VStr (colRef c2)
  | .lit v => v

/-- `IntegerColumn.validate_type`: the operand must be a `Number` or a
`Column`; a string raises `InvalidTypeError`. -/
def intValidate : Operand → Except PyErr Unit
  | .lit (.VStr _) => .error .invalidType
  | _ => .ok ()

/-- `StringColumn.validate_type`: the operand must be a `basestring` or a
`Column`; a number raises `InvalidTypeError`. -/
def strValidate : Operand → Except PyErr Unit
  | .lit (.VInt _) => .error .invalidType
  | _ => .ok ()

/-- `len(s.split('-'))` in Python: splitting on a single character yields
one more piece than there are occurrences of the character. -/
def pySplitDashLen (s : String) : Nat := s.data.countP (fun ch => ch == '-') + 1

/-- `DateTimeColumn.validate_type`.  The source condition is
`if (not isinstance(right, Column) and not isinstance(right, basestring)
or len(right.split('-')) != 3)`: by Python precedence this is
`(A and B) or C`.  For a `Column` operand the left disjunct is false and
evaluating `right.split('-')` raises `AttributeError` (a `Column` has no
`split`); for a number the left disjunct short-circuits to a raise of
`InvalidTypeError`; for a string the dash-split length is checked. -/
def dtValidate : Operand → Except PyErr Unit
  | .col _ => .error .attributeError
  | .lit (.VInt _) => .error .invalidType
  | .lit (.VStr s) => if pySplitDashLen s = 3 then .ok () else .error .invalidType

/-- The six comparison operators overloaded on columns. -/
inductive CmpOp where
  | lt | le | gt | ge | eq | ne
deriving DecidableEq, Repr

/-- The operator text used by the base ordering comparisons
(`' < '`, `' <= '`, `' > '`, `' >= '`). -/
def ordSym : CmpOp → String
  | .lt => " < "
  | .le => " <= "
  | .gt => " > "
  | .ge => " >= "
  | .eq => " = "
  | .ne => " != "

/-- Base `Column.__lt__/__le__/__gt__/__ge__`: render
`table.column <op> ?` and append the (rendered) operand to `data`.
No state-dependent special cases exist on this path. -/
def baseOrd (c : Column) (op : CmpOp) (rhs : Operand) (ctx : Ctx) : String × Ctx :=
  (colRef c ++ ordSym op ++ "?",
   ⟨ctx.lastMethod, ctx.data ++ [renderOperand rhs], ctx.sql, ctx.selectCols⟩)

/-- The left side rendered by `Column.__eq__/__ne__`: the bare column name
when `last_method == 'Update'`, the qualified reference otherwise. -/
def eqLeft (ctx : Ctx) (c : Column) : String :=
  if ctx.lastMethod = "Update" then c.name else colRef c

/-- The operand as rendered by `Column.__eq__/__ne__`: a `Column` operand
becomes its bare name under `last_method == 'Update'` and its qualified
reference otherwise; a literal passes through. -/
def eqRendered (ctx : Ctx) : Operand → SqlValue
  | .col c2 => .VStr (if ctx.lastMethod = "Update" then c2.name else colRef c2)
  | .lit v => v

/-- Base `Column.__eq__/__ne__`.  When `last_method == 'Join'` the rendered
operand is concatenated directly into the text (`sql += right`; a
non-string there raises `TypeError` in Python 2) and nothing is appended
to `data`; otherwise a `?` is emitted and the rendered operand is appended
to `data`. -/
def baseEq (c : Column) (op : CmpOp) (rhs : Operand) (ctx : Ctx) :
    Except PyErr (String × Ctx) :=
  if ctx.lastMethod = "Join" then
    match eqRendered ctx rhs with
    | .VStr s => .ok (eqLeft ctx c ++ ordSym op ++ s, ctx)
    | .VInt _ => .error .typeError
  else
    .ok (eqLeft ctx c ++ ordSym op ++ "?",
      ⟨ctx.lastMethod, ctx.data ++ [eqRendered ctx rhs], ctx.sql, ctx.selectCols⟩)

/-- Dispatch of a comparison operator on a column, following the class
hierarchy: each subclass validates per its kind, `StringColumn` overrides
the four ordering operators to raise `InvalidTypeError` (`__lt__` without
prior validation, the other three after validation), and everything else
delegates to the base `Column` implementation. -/
def evalCmp (c : Column) (op : CmpOp) (rhs : Operand) (ctx : Ctx) :
    Except PyErr (String × Ctx) :=
  match c.kind with
  | .int =>
      match intValidate rhs with
      | .error e => .error e
      | .ok _ =>
          match op with
          | .lt | .le | .gt | .ge => .ok (baseOrd c op rhs ctx)
          | .eq | .ne => baseEq c op rhs ctx
  | .text =>
      match op with
      | .lt => .error .invalidType
      | .le | .gt | .ge =>
          match strValidate rhs with
          | .error e => .error e
          | .ok _ => .error .invalidType
      | .eq | .ne =>
          match strValidate rhs with
          | .error e => .error e
          | .ok _ => baseEq c op rhs ctx
  | .datetime =>
      match dtValidate rhs with
      | .error e => .error e
      | .ok _ =>
          match op with
          | .lt | .le | .gt | .ge => .ok (baseOrd c op rhs ctx)
          | .eq | .ne => baseEq c op rhs ctx

/-- The single-quote character, used by Python string rendering. -/
def squoteCh : Char := Char.ofNat 39

/-- The double-quote character. -/
def dquoteCh : Char := Char.ofNat 34

/-- `', '.join(items)`, the comma-separated joining used throughout the
builder. -/
def commaJoin : List String → String
  | [] => ""
  | [s] => s
  | s :: rest => s ++ ", " ++ commaJoin rest

/-- CPython `repr` of a plain string (no escaping of inner characters is
modelled beyond the quote choice): single quotes, except that a string
containing a single quote and no double quote is double-quoted. -/
def pyReprStr (s : String) : String :=
  if s.contains squoteCh && !(s.contains dquoteCh) then
    String.singleton dquoteCh ++ s ++ String.singleton dquoteCh
  else
    String.singleton squoteCh ++ s ++ String.singleton squoteCh

/-- Python `repr` of a value (`str` of an int, `repr` of a string), as
used by `str(tuple(arg))`. -/
def pyRepr : SqlValue → String
  | .VInt n => Int.repr n
  | .VStr s => pyReprStr s

/-- `str(tuple(arg))` in CPython: parenthesized comma-separated `repr`s,
with a trailing comma for a one-element tuple. -/
def pyTupleRepr : List SqlValue → String
  | [] => "()"
  | [v] => "(" ++ pyRepr v ++ ",)"
  | v :: vs => "(" ++ commaJoin ((v :: vs).map pyRepr) ++ ")"

/-- A condition expression as written by the caller: a comparison-operator
application, or `Column.In` / `Column.NotIn` on a sequence of values. -/
inductive Cond where
  | cmp : Column → CmpOp → Operand → Cond
  | inSet : Column → List SqlValue → Cond
  | notInSet : Column → List SqlValue → Cond
deriving DecidableEq, Repr

/-- Evaluating one condition against the shared state.  `In`/`NotIn`
(`Column.In`, `Column.NotIn`) render the literal tuple inline and touch
neither `data` nor any other state; comparisons go through `evalCmp`. -/
def evalCond : Cond → Ctx → Except PyErr (String × Ctx)
  | .cmp c op rhs, ctx => evalCmp c op rhs ctx
  | .inSet c vs, ctx => .ok (colRef c ++ " IN " ++ pyTupleRepr vs, ctx)
  | .notInSet c vs, ctx => .ok (colRef c ++ " NOT IN " ++ pyTupleRepr vs, ctx)

/-- An argument to `SqlBuilder.Select`: a single column or a table's `all`
list. -/
inductive SelectArg where
  | acol : Column → SelectArg
  | alist : List Column → SelectArg
deriving DecidableEq, Repr

/-- The argument-flattening loop at the top of `SqlBuilder.Select`: the
first argument that is a Python `list` replaces the whole argument tuple;
otherwise the arguments are the columns themselves. -/
def flattenSelect (args : List SelectArg) : List Column :=
  match args.find? (fun a => match a with | .alist _ => true | .acol _ => false) with
  | some (.alist l) => l
  | _ => args.filterMap (fun a => match a with | .acol c => some c | .alist _ => none)

/-- `IntegerColumn.create` / `StringColumn.create` / `DateTimeColumn.create`
(note the leading space produced by `DateTimeColumn.create`). -/
def createCol (c : Column) : String :=
  match c.kind with
  | .int => c.name ++ " INT"
  | .text => c.name ++ " TEXT"
  | .datetime => " " ++ c.name ++ " DATETIME"

/-- `Values` quoting: strings are wrapped in single quotes via
`"'{0}'".format(...)`, every other value is rendered with `str`. -/
def valuesItem : SqlValue → String
  | .VInt n => Int.repr n
  | .VStr s => String.singleton squoteCh ++ s ++ String.singleton squoteCh

/-- A clause-method invocation on `SqlBuilder`, with condition arguments
already rendered to strings (Python evaluates the comparison expressions
before the clause method is entered, so the methods receive strings). -/
inductive Clause where
  | select : List SelectArg → Clause
  | update : Table → Clause
  | insert : Table → Clause
  | delete : Clause
  | fromT : List Table → Clause
  | whereC : List String → Clause
  | andC : List String → Clause
  | orC : List String → Clause
  | innerJoin : Table → Clause
  | outerJoin : Table → Clause
  | leftJoin : Table → Clause
  | rightJoin : Table → Clause
  | onC : List String → Clause
  | columns : List Column → Clause
  | values : List SqlValue → Clause
  | setC : List String → Clause
  | createTable : Table → Clause
  | dropTable : Table → Clause
deriving DecidableEq, Repr

/-- `fn.__name__` of the decorated clause method, as seen by
`check_order`. -/
def clauseName : Clause → String
  | .select _ => "Select"
  | .update _ => "Update"
  | .insert _ => "Insert"
  | .delete => "Delete"
  | .fromT _ => "From"
  | .whereC _ => "Where"
  | .andC _ => "And"
  | .orC _ => "Or"
  | .innerJoin _ => "InnerJoin"
  | .outerJoin _ => "OuterJoin"
  | .leftJoin _ => "LeftJoin"
  | .rightJoin _ => "RightJoin"
  | .onC _ => "On"
  | .columns _ => "Columns"
  | .values _ => "Values"
  | .setC _ => "Set"
  | .createTable _ => "CreateTable"
  | .dropTable _ => "DropTable"

/-- `clear_data` inside `check_order`: empties the fragment list and the
bound-parameter list (and nothing else). -/
def clearData (ctx : Ctx) : Ctx := ⟨ctx.lastMethod, [], [], ctx.selectCols⟩

/-- The `check_order` decorator from `SqlBuilder`, minus the final call of
the wrapped method: statement openers reset the context and set
`last_method` unconditionally; `From`/`Where`/`And`/`Or`/the four joins/`On`
raise `InvalidOrderError` unless `last_method` is an accepted predecessor,
else set the new state; any other method name (`Set`, `Columns`, `Values`)
matches no branch and passes through with the state untouched. -/
def checkOrder (name : String) (ctx : Ctx) : Except PyErr Ctx :=
  if name = "Select" then .ok ⟨"Select", [], [], ctx.selectCols⟩
  else if name = "Delete" then .ok ⟨"Delete", [], [], ctx.selectCols⟩
  else if name = "Update" then .ok ⟨"Update", [], [], ctx.selectCols⟩
  else if name = "Insert" then .ok ⟨"Insert", [], [], ctx.selectCols⟩
  else if name = "CreateTable" then .ok ⟨"CreateTable", [], [], ctx.selectCols⟩
  else if name = "DropTable" then .ok ⟨"DropTable", [], [], ctx.selectCols⟩
  else if name = "From" then
    if ctx.lastMethod = "Select" ∨ ctx.lastMethod = "Delete" then
      .ok ⟨"From", ctx.data, ctx.sql, ctx.selectCols⟩
    else .error .invalidOrder
  else if name = "Where" then
    if ctx.lastMethod = "From" ∨ ctx.lastMethod = "Set" ∨ ctx.lastMethod = "Update" then
      .ok ⟨"Where", ctx.data, ctx.sql, ctx.selectCols⟩
    else .error .invalidOrder
  else if name = "And" then
    if ctx.lastMethod = "Where" ∨ ctx.lastMethod = "Or" ∨ ctx.lastMethod = "And" then
      .ok ⟨"And", ctx.data, ctx.sql, ctx.selectCols⟩
    else .error .invalidOrder
  else if name = "Or" then
    if ctx.lastMethod = "Where" ∨ ctx.lastMethod = "And" ∨ ctx.lastMethod = "Or" then
      .ok ⟨"Or", ctx.data, ctx.sql, ctx.selectCols⟩
    else .error .invalidOrder
  else if name = "InnerJoin" ∨ name = "LeftJoin" ∨ name = "RightJoin" ∨ name = "OuterJoin" then
    if ctx.lastMethod = "From" then
      .ok ⟨"Join", ctx.data, ctx.sql, ctx.selectCols⟩
    else .error .invalidOrder
  else if name = "On" then
    if ctx.lastMethod = "Join" then
      .ok ⟨"On", ctx.data, ctx.sql, ctx.selectCols⟩
    else .error .invalidOrder
  else .ok ctx

/-- The concatenation of already-rendered fragments, `''.join(args)`. -/
def joinS : List String → String
  | [] => ""
  | s :: rest => s ++ joinS rest

/-- The body of each clause method (the code after the `check_order`
wrapper), which appends its fragment(s) to `self.sql`; `Select` also
records `select_columns`.  No body raises or touches `data`. -/
def clauseBody : Clause → Ctx → Ctx
  | .select args, ctx =>
      let names := (flattenSelect args).map colRef
      ⟨ctx.lastMethod, ctx.data,
        ctx.sql ++ ["SELECT " ++ commaJoin names], names⟩
  | .update t, ctx =>
      ⟨ctx.lastMethod, ctx.data,
        ctx.sql ++ ["UPDATE " ++ t.getName ++ " SET "], ctx.selectCols⟩
  | .insert t, ctx =>
      ⟨ctx.lastMethod, ctx.data,
        ctx.sql ++ ["INSERT INTO " ++ t.getName ++ " "], ctx.selectCols⟩
  | .delete, ctx =>
      ⟨ctx.lastMethod, ctx.data, ctx.sql ++ ["DELETE "], ctx.selectCols⟩
  | .fromT ts, ctx =>
      ⟨ctx.lastMethod, ctx.data,
        ctx.sql ++ [" FROM " ++ commaJoin (ts.map Table.getName)],
        ctx.selectCols⟩
  | .whereC ss, ctx =>
      ⟨ctx.lastMethod, ctx.data, ctx.sql ++ [" WHERE " ++ joinS ss], ctx.selectCols⟩
  | .andC ss, ctx =>
      ⟨ctx.lastMethod, ctx.data, ctx.sql ++ [" AND " ++ joinS ss], ctx.selectCols⟩
  | .orC ss, ctx =>
      ⟨ctx.lastMethod, ctx.data, ctx.sql ++ [" OR " ++ joinS ss], ctx.selectCols⟩
  | .innerJoin t, ctx =>
      ⟨ctx.lastMethod, ctx.data, ctx.sql ++ [" INNER JOIN " ++ t.getName], ctx.selectCols⟩
  | .outerJoin t, ctx =>
      ⟨ctx.lastMethod, ctx.data, ctx.sql ++ [" OUTER JOIN " ++ t.getName], ctx.selectCols⟩
  | .leftJoin t, ctx =>
      ⟨ctx.lastMethod, ctx.data, ctx.sql ++ [" LEFT JOIN " ++ t.getName], ctx.selectCols⟩
  | .rightJoin t, ctx =>
      ⟨ctx.lastMethod, ctx.data, ctx.sql ++ [" RIGHT JOIN " ++ t.getName], ctx.selectCols⟩
  | .onC ss, ctx =>
      ⟨ctx.lastMethod, ctx.data, ctx.sql ++ [" ON " ++ joinS ss], ctx.selectCols⟩
  | .columns cs, ctx =>
      ⟨ctx.lastMethod, ctx.data,
        ctx.sql ++ [" (" ++ commaJoin (cs.map Column.name) ++ ") "],
        ctx.selectCols⟩
  | .values vs, ctx =>
      ⟨ctx.lastMethod, ctx.data,
        ctx.sql ++ ["VALUES (" ++ commaJoin (vs.map valuesItem) ++ ")"],
        ctx.selectCols⟩
  | .setC ss, ctx =>
      ⟨ctx.lastMethod, ctx.data, ctx.sql ++ [commaJoin ss], ctx.selectCols⟩
  | .createTable t, ctx =>
      ⟨ctx.lastMethod, ctx.data,
        ctx.sql ++ ["CREATE TABLE " ++ t.getName ++ " (" ++
          commaJoin (t.cols.map createCol) ++ ")"],
        ctx.selectCols⟩
  | .dropTable t, ctx =>
      ⟨ctx.lastMethod, ctx.data,
        ctx.sql ++ ["DROP TABLE IF EXISTS " ++ t.getName], ctx.selectCols⟩

/-- One decorated clause-method call: `check_order`, then the body. -/
def stepClause (c : Clause) (ctx : Ctx) : Except PyErr Ctx :=
  match checkOrder (clauseName c) ctx with
  | .error e => .error e
  | .ok ctx1 => .ok (clauseBody c ctx1)

/-- `SqlBuilder.LeftBracket`: not decorated with `check_order`; appends the
literal `' ('` and then the joined condition text, as two fragments. -/
def leftBracket (ss : List String) (ctx : Ctx) : Ctx :=
  ⟨ctx.lastMethod, ctx.data, ctx.sql ++ [" (", joinS ss], ctx.selectCols⟩

/-- `SqlBuilder.RightBracket`: not decorated; appends `') '`. -/
def rightBracket (ctx : Ctx) : Ctx :=
  ⟨ctx.lastMethod, ctx.data, ctx.sql ++ [") "], ctx.selectCols⟩

/-- A fluent builder call as the caller writes it: clause methods whose
condition arguments are comparison / membership expressions, evaluated
(left to right, mutating the shared state) immediately before the clause
method runs — Python's evaluation order for `query.Where(col < v)`. -/
inductive FOp where
  | select : List SelectArg → FOp
  | update : Table → FOp
  | insert : Table → FOp
  | delete : FOp
  | fromT : List Table → FOp
  | whereC : List Cond → FOp
  | andC : List Cond → FOp
  | orC : List Cond → FOp
  | innerJoin : Table → FOp
  | outerJoin : Table → FOp
  | leftJoin : Table → FOp
  | rightJoin : Table → FOp
  | onC : List Cond → FOp
  | columns : List Column → FOp
  | values : List SqlValue → FOp
  | setC : List Cond → FOp
  | leftBracketC : List Cond → FOp
  | rightBracketC : FOp
  | createTable : Table → FOp
  | dropTable : Table → FOp
deriving DecidableEq, Repr

/-- Evaluate a list of condition expressions left to right, threading the
shared state, and collect the rendered strings. -/
def renderConds : List Cond → Ctx → Except PyErr (List String × Ctx)
  | [], ctx => .ok ([], ctx)
  | c :: cs, ctx =>
      match evalCond c ctx with
      | .error e => .error e
      | .ok (s, ctx1) =>
          match renderConds cs ctx1 with
          | .error e => .error e
          | .ok (ss, ctx2) => .ok (s :: ss, ctx2)

/-- One fluent call: evaluate the condition arguments (if any), then run
the clause method on the resulting state. -/
def stepFluent : FOp → Ctx → Except PyErr Ctx
  | .select args, ctx => stepClause (.select args) ctx
  | .update t, ctx => stepClause (.update t) ctx
  | .insert t, ctx => stepClause (.insert t) ctx
  | .delete, ctx => stepClause .delete ctx
  | .fromT ts, ctx => stepClause (.fromT ts) ctx
  | .whereC cs, ctx =>
      match renderConds cs ctx with
      | .error e => .error e
      | .ok (ss, ctx1) => stepClause (.whereC ss) ctx1
  | .andC cs, ctx =>
      match renderConds cs ctx with
      | .error e => .error e
      | .ok (ss, ctx1) => stepClause (.andC ss) ctx1
  | .orC cs, ctx =>
      match renderConds cs ctx with
      | .error e => .error e
      | .ok (ss, ctx1) => stepClause (.orC ss) ctx1
  | .innerJoin t, ctx => stepClause (.innerJoin t) ctx
  | .outerJoin t, ctx => stepClause (.outerJoin t) ctx
  | .leftJoin t, ctx => stepClause (.leftJoin t) ctx
  | .rightJoin t, ctx => stepClause (.rightJoin t) ctx
  | .onC cs, ctx =>
      match renderConds cs ctx with
      | .error e => .error e
      | .ok (ss, ctx1) => stepClause (.onC ss) ctx1
  | .columns cs, ctx => stepClause (.columns cs) ctx
  | .values vs, ctx => stepClause (.values vs) ctx
  | .setC cs, ctx =>
      match renderConds cs ctx with
      | .error e => .error e
      | .ok (ss, ctx1) => stepClause (.setC ss) ctx1
  | .leftBracketC cs, ctx =>
      match renderConds cs ctx with
      | .error e => .error e
      | .ok (ss, ctx1) => .ok (leftBracket ss ctx1)
  | .rightBracketC, ctx => .ok (rightBracket ctx)
  | .createTable t, ctx => stepClause (.createTable t) ctx
  | .dropTable t, ctx => stepClause (.dropTable t) ctx

/-- Run a sequence of fluent builder calls; the run is defined (`.ok`)
exactly when every call succeeds. -/
def runFluent : List FOp → Ctx → Except PyErr Ctx
  | [], ctx => .ok ctx
  | op :: ops, ctx =>
      match stepFluent op ctx with
      | .error e => .error e
      | .ok ctx1 => runFluent ops ctx1

/-! The example schema from src/sql.py (`Db.Users`, `Db.Managers`), used
as concrete inputs for witnesses and counterexamples.  `MetaTable` assigns
the class name, capitalized as written, as each column's `table_name`. -/

/-- `Db.Users.id`. -/
def usersId : Column := ⟨"Users", "id", .int⟩

/-- `Db.Users.login`. -/
def usersLogin : Column := ⟨"Users", "login", .text⟩

/-- `Db.Users.last_login_time`. -/
def usersLastLogin : Column := ⟨"Users", "last_login_time", .datetime⟩

/-- `Db.Users.flag`. -/
def usersFlag : Column := ⟨"Users", "flag", .text⟩

/-- `Db.Users.position`. -/
def usersPosition : Column := ⟨"Users", "position", .int⟩

/-- `Db.Users.class_field`. -/
def usersClassField : Column := ⟨"Users", "class_field", .text⟩

/-- `Db.Users` (column order in `all` is unspecified in Python 2; the
declaration order is used here). -/
def usersTable : Table :=
  ⟨"users", [usersId, usersLogin, usersLastLogin, usersFlag, usersPosition,
    usersClassField]⟩

/-- `Db.Managers.id`. -/
def managersId : Column := ⟨"Managers", "id", .int⟩

/-- `Db.Managers.photo`. -/
def managersPhoto : Column := ⟨"Managers", "photo", .text⟩

/-- `Db.Managers`. -/
def managersTable : Table := ⟨"managers", [managersId, managersPhoto]⟩

/-! Placeholder counting and the alignment property of the §3 invariant. -/

/-- Number of `?` characters in a string. -/
def qCount (s : String) : Nat := s.data.countP (fun ch => ch == '?')

theorem qCount_append (a b : String) : qCount (a ++ b) = qCount a + qCount b := by
  simp [qCount, String.data_append, List.countP_append]

/-- Concatenation distributes over `joinS`. -/
theorem joinS_append (a b : List String) : joinS (a ++ b) = joinS a ++ joinS b := by
  induction a with
  | nil => simp [joinS]
  | cons s rest ih => simp [joinS, ih, String.append_assoc]

/-- `qCount` over a fragment list. -/
theorem qCount_joinS (l : List String) : qCount (joinS l) = (l.map qCount).sum := by
  induction l with
  | nil => simp [joinS]; rfl
  | cons s rest ih => simp [joinS, qCount_append, ih]

/-- `qCount` over a comma-joined list (the separator has no `?`). -/
theorem qCount_commaJoin (l : List String) :
    qCount (commaJoin l) = (l.map qCount).sum := by
  induction l with
  | nil => simp [commaJoin]; rfl
  | cons s rest ih =>
      cases rest with
      | nil => simp [commaJoin]
      | cons s2 rest2 =>
          simp only [commaJoin] at ih ⊢
          simp [qCount_append, ih]
          have : qCount ", " = 0 := by decide
          omega

/-- No character of `Nat.toDigitsCore` output is `?` when the accumulator
has none. -/
theorem toDigitsCore_no_q (b : Nat) :
    ∀ (f n : Nat) (l : List Char), (∀ c ∈ l, c ≠ '?') →
      ∀ c ∈ Nat.toDigitsCore b f n l, c ≠ '?' := by
  intro f
  induction f with
  | zero => intro n l hl c hc; exact hl c hc
  | succ f ih =>
      intro n l hl c hc
      have hd : ∀ d : Nat, Nat.digitChar d ≠ '?' := by
        intro d
        match d with
        | 0 | 1 | 2 | 3 | 4 | 5 | 6 | 7 | 8 | 9 | 10 | 11 | 12 | 13 | 14 | 15 => decide
        | (m+16) =>
            unfold Nat.digitChar
            repeat rw [if_neg (by omega)]
            decide
      simp only [Nat.toDigitsCore] at hc
      split at hc
      · rcases List.mem_cons.mp hc with h | h
        · exact h ▸ hd _
        · exact hl c h
      · refine ih _ _ ?_ c hc
        intro c2 hc2
        rcases List.mem_cons.mp hc2 with h | h
        · exact h ▸ hd _
        · exact hl c2 h

/-- The decimal rendering of a natural number has no `?`. -/
theorem qCount_natRepr (n : Nat) : qCount (Nat.repr n) = 0 := by
  have h := toDigitsCore_no_q 10 (n + 1) n [] (by simp)
  simp only [qCount, Nat.repr, Nat.toDigits, List.asString]
  rw [List.countP_eq_zero]
  intro c hc
  simpa using h c hc

/-- The decimal rendering of an integer has no `?`. -/
theorem qCount_intRepr (n : Int) : qCount (Int.repr n) = 0 := by
  cases n with
  | ofNat m => simpa [Int.repr] using qCount_natRepr m
  | negSucc m =>
      simp only [Int.repr]
      rw [qCount_append, qCount_natRepr]
      decide

/-! Cleanliness: names and inlined literals that contain no `?` character.
These are the side conditions under which the placeholder/parameter
alignment of §3 can hold at all, since `In`/`NotIn`/`Values` (and the
`Join`-state equality) splice literal text into the statement. -/

/-- A value whose inline rendering introduces no `?`. -/
def cleanVal : SqlValue → Bool
  | .VInt _ => true
  | .VStr s => qCount s == 0

/-- A column whose registered table and attribute names contain no `?`. -/
def cleanCol (c : Column) : Bool := (qCount c.table == 0) && (qCount c.name == 0)

/-- A clean comparison operand. -/
def cleanOperand : Operand → Bool
  | .lit v => cleanVal v
  | .col c => cleanCol c

/-- A clean condition expression. -/
def cleanCond : Cond → Bool
  | .cmp c _ rhs => cleanCol c && cleanOperand rhs
  | .inSet c vs => cleanCol c && vs.all cleanVal
  | .notInSet c vs => cleanCol c && vs.all cleanVal

/-- A clean table: its derived name and all registered columns. -/
def cleanTable (t : Table) : Bool :=
  (qCount t.getName == 0) && t.cols.all cleanCol

/-- A clean `Select` argument. -/
def cleanSelectArg : SelectArg → Bool
  | .acol c => cleanCol c
  | .alist l => l.all cleanCol

/-- A clean fluent call: every name or literal that the call can splice
into statement text is free of `?`. -/
def cleanFOp : FOp → Bool
  | .select args => args.all cleanSelectArg
  | .update t => cleanTable t
  | .insert t => cleanTable t
  | .delete => true
  | .fromT ts => ts.all cleanTable
  | .whereC cs => cs.all cleanCond
  | .andC cs => cs.all cleanCond
  | .orC cs => cs.all cleanCond
  | .innerJoin t => cleanTable t
  | .outerJoin t => cleanTable t
  | .leftJoin t => cleanTable t
  | .rightJoin t => cleanTable t
  | .onC cs => cs.all cleanCond
  | .columns cs => cs.all cleanCol
  | .values vs => vs.all cleanVal
  | .setC cs => cs.all cleanCond
  | .leftBracketC cs => cs.all cleanCond
  | .rightBracketC => true
  | .createTable t => cleanTable t
  | .dropTable t => cleanTable t

/-- The §3 invariant as a property of final statement text and parameter
list: the text splits into consecutive chunks, each carrying the values
appended while it was rendered, and each chunk holds exactly as many `?`
placeholders as values — so the i-th `?` of the text and the i-th entry of
the parameter list stem from the same comparison. -/
def Aligned (text : String) (data : List SqlValue) : Prop :=
  ∃ chunks : List (String × List SqlValue),
    text = joinS (chunks.map Prod.fst) ∧
    data = (chunks.map Prod.snd).flatten ∧
    ∀ p ∈ chunks, qCount p.1 = p.2.length

/-- Sanity consequence: aligned text has exactly one `?` per parameter. -/
theorem Aligned.count {text : String} {data : List SqlValue}
    (h : Aligned text data) : qCount text = data.length := by
  obtain ⟨chunks, ht, hd, hc⟩ := h
  subst ht hd
  induction chunks with
  | nil => simp [joinS]; rfl
  | cons p rest ih =>
      simp only [List.map_cons, joinS, List.flatten_cons, qCount_append,
        List.length_append]
      rw [hc p (by simp), ih fun q hq => hc q (List.mem_cons_of_mem _ hq)]

theorem qCount_colRef {c : Column} (h : cleanCol c = true) : qCount (colRef c) = 0 := by
  simp only [cleanCol, Bool.and_eq_true, beq_iff_eq] at h
  simp [colRef, qCount_append, h.1, h.2]
  decide

theorem qCount_ordSym (op : CmpOp) : qCount (ordSym op) = 0 := by
  cases op <;> decide

theorem qCount_pyRepr {v : SqlValue} (h : cleanVal v = true) : qCount (pyRepr v) = 0 := by
  cases v with
  | VInt n => simpa [pyRepr] using qCount_intRepr n
  | VStr s =>
      simp only [cleanVal, beq_iff_eq] at h
      simp only [pyRepr, pyReprStr]
      split <;> simp [qCount_append, h] <;> decide

theorem qCount_pyTupleRepr {vs : List SqlValue} (h : vs.all cleanVal = true) :
    qCount (pyTupleRepr vs) = 0 := by
  have hall : ∀ w ∈ vs, cleanVal w = true := List.all_eq_true.mp h
  match vs, hall with
  | [], _ => decide
  | [v], hall =>
      simp [pyTupleRepr, qCount_append, qCount_pyRepr (hall v (by simp))]
      decide
  | v :: v2 :: rest, hall =>
      simp only [pyTupleRepr, qCount_append, qCount_commaJoin]
      rw [List.sum_eq_zero]
      · decide
      · intro x hx
        obtain ⟨s, hs, rfl⟩ := List.mem_map.mp hx
        obtain ⟨w, hw, rfl⟩ := List.mem_map.mp hs
        exact qCount_pyRepr (hall w hw)

theorem qCount_valuesItem {v : SqlValue} (h : cleanVal v = true) :
    qCount (valuesItem v) = 0 := by
  cases v with
  | VInt n => simpa [valuesItem] using qCount_intRepr n
  | VStr s =>
      simp only [cleanVal, beq_iff_eq] at h
      simp [valuesItem, qCount_append, h]
      decide

theorem qCount_commaJoin_zero {l : List String} (h : ∀ s ∈ l, qCount s = 0) :
    qCount (commaJoin l) = 0 := by
  rw [qCount_commaJoin, List.sum_eq_zero]
  intro x hx
  simp only [List.mem_map] at hx
  obtain ⟨s, hs, rfl⟩ := hx
  exact h s hs

theorem qCount_eqLeft {c : Column} (ctx : Ctx) (hc : cleanCol c = true) :
    qCount (eqLeft ctx c) = 0 := by
  unfold eqLeft
  split
  · simp only [cleanCol, Bool.and_eq_true, beq_iff_eq] at hc
    exact hc.2
  · exact qCount_colRef hc

theorem qCount_eqRendered {rhs : Operand} {ctx : Ctx} {s0 : String}
    (hr : cleanOperand rhs = true) (h : eqRendered ctx rhs = .VStr s0) :
    qCount s0 = 0 := by
  cases rhs with
  | lit v =>
      cases v with
      | VInt n => simp [eqRendered] at h
      | VStr s1 =>
          simp only [eqRendered, SqlValue.VStr.injEq] at h
          subst h
          simpa [cleanOperand, cleanVal] using hr
  | col c2 =>
      simp only [eqRendered, SqlValue.VStr.injEq] at h
      simp only [cleanOperand, cleanCol, Bool.and_eq_true, beq_iff_eq] at hr
      subst h
      split
      · exact hr.2
      · exact qCount_colRef (by simp [cleanCol, hr.1, hr.2])

/-- `Column.__eq__/__ne__` seen as a chunk producer: on success it leaves
everything but `data` unchanged, appends some values `vs` to `data`, and
renders exactly `vs.length` placeholders (for clean inputs). -/
theorem baseEq_chunk {c : Column} {op : CmpOp} {rhs : Operand} {ctx : Ctx}
    {s : String} {ctx' : Ctx}
    (hc : cleanCol c = true) (hr : cleanOperand rhs = true)
    (h : baseEq c op rhs ctx = .ok (s, ctx')) :
    ctx'.lastMethod = ctx.lastMethod ∧ ctx'.sql = ctx.sql ∧
    ctx'.selectCols = ctx.selectCols ∧
    ∃ vs, ctx'.data = ctx.data ++ vs ∧ qCount s = vs.length := by
  unfold baseEq at h
  split at h
  · cases hrv : eqRendered ctx rhs with
    | VInt n => rw [hrv] at h; exact absurd h (by simp)
    | VStr s0 =>
        rw [hrv] at h
        simp only [Except.ok.injEq, Prod.mk.injEq] at h
        obtain ⟨hs, hctx⟩ := h
        subst hs
        subst hctx
        refine ⟨rfl, rfl, rfl, [], by simp, ?_⟩
        simp [qCount_append, qCount_eqLeft ctx hc, qCount_ordSym,
          qCount_eqRendered hr hrv]
  · simp only [Except.ok.injEq, Prod.mk.injEq] at h
    obtain ⟨hs, hctx⟩ := h
    subst hs
    subst hctx
    refine ⟨rfl, rfl, rfl, [eqRendered ctx rhs], rfl, ?_⟩
    have : qCount "?" = 1 := by decide
    simp [qCount_append, qCount_eqLeft ctx hc, qCount_ordSym, this]

/-- The base ordering comparisons as chunk producers: always exactly one
placeholder and one appended value. -/
theorem baseOrd_chunk {c : Column} {op : CmpOp} {rhs : Operand} {ctx : Ctx}
    {s : String} {ctx' : Ctx}
    (hc : cleanCol c = true) (h : baseOrd c op rhs ctx = (s, ctx')) :
    ctx'.lastMethod = ctx.lastMethod ∧ ctx'.sql = ctx.sql ∧
    ctx'.selectCols = ctx.selectCols ∧
    ∃ vs, ctx'.data = ctx.data ++ vs ∧ qCount s = vs.length := by
  simp only [baseOrd, Prod.mk.injEq] at h
  obtain ⟨hs, hctx⟩ := h
  subst hs
  subst hctx
  refine ⟨rfl, rfl, rfl, [renderOperand rhs], rfl, ?_⟩
  have : qCount "?" = 1 := by decide
  simp [qCount_append, qCount_colRef hc, qCount_ordSym, this]

/-- Any successful condition evaluation leaves everything but `data`
unchanged, appends some `vs` to `data`, and (for clean inputs) renders
exactly `vs.length` placeholders. -/
theorem evalCond_chunk {cond : Cond} {ctx : Ctx} {s : String} {ctx' : Ctx}
    (hcl : cleanCond cond = true) (h : evalCond cond ctx = .ok (s, ctx')) :
    ctx'.lastMethod = ctx.lastMethod ∧ ctx'.sql = ctx.sql ∧
    ctx'.selectCols = ctx.selectCols ∧
    ∃ vs, ctx'.data = ctx.data ++ vs ∧ qCount s = vs.length := by
  cases cond with
  | inSet c vs =>
      simp only [evalCond, Except.ok.injEq, Prod.mk.injEq] at h
      obtain ⟨hs, hctx⟩ := h
      subst hs
      subst hctx
      simp only [cleanCond, Bool.and_eq_true] at hcl
      refine ⟨rfl, rfl, rfl, [], by simp, ?_⟩
      have h1 : qCount " IN " = 0 := by decide
      simp [qCount_append, qCount_colRef hcl.1, h1, qCount_pyTupleRepr hcl.2]
  | notInSet c vs =>
      simp only [evalCond, Except.ok.injEq, Prod.mk.injEq] at h
      obtain ⟨hs, hctx⟩ := h
      subst hs
      subst hctx
      simp only [cleanCond, Bool.and_eq_true] at hcl
      refine ⟨rfl, rfl, rfl, [], by simp, ?_⟩
      have h1 : qCount " NOT IN " = 0 := by decide
      simp [qCount_append, qCount_colRef hcl.1, h1, qCount_pyTupleRepr hcl.2]
  | cmp c op rhs =>
      simp only [cleanCond, Bool.and_eq_true] at hcl
      simp only [evalCond] at h
      obtain ⟨tbl, nm, k⟩ := c
      cases k with
      | int =>
          simp only [evalCmp] at h
          cases hv : intValidate rhs with
          | error e => rw [hv] at h; simp at h
          | ok u =>
              rw [hv] at h
              cases op
              case lt => exact baseOrd_chunk hcl.1 (by simpa using h)
              case le => exact baseOrd_chunk hcl.1 (by simpa using h)
              case gt => exact baseOrd_chunk hcl.1 (by simpa using h)
              case ge => exact baseOrd_chunk hcl.1 (by simpa using h)
              case eq => exact baseEq_chunk hcl.1 hcl.2 h
              case ne => exact baseEq_chunk hcl.1 hcl.2 h
      | text =>
          simp only [evalCmp] at h
          cases op
          case lt => simp at h
          case le =>
              cases hv : strValidate rhs with
              | error e => rw [hv] at h; simp at h
              | ok u => rw [hv] at h; simp at h
          case gt =>
              cases hv : strValidate rhs with
              | error e => rw [hv] at h; simp at h
              | ok u => rw [hv] at h; simp at h
          case ge =>
              cases hv : strValidate rhs with
              | error e => rw [hv] at h; simp at h
              | ok u => rw [hv] at h; simp at h
          case eq =>
              cases hv : strValidate rhs with
              | error e => rw [hv] at h; simp at h
              | ok u => rw [hv] at h; exact baseEq_chunk hcl.1 hcl.2 h
          case ne =>
              cases hv : strValidate rhs with
              | error e => rw [hv] at h; simp at h
              | ok u => rw [hv] at h; exact baseEq_chunk hcl.1 hcl.2 h
      | datetime =>
          simp only [evalCmp] at h
          cases hv : dtValidate rhs with
          | error e => rw [hv] at h; simp at h
          | ok u =>
              rw [hv] at h
              cases op
              case lt => exact baseOrd_chunk hcl.1 (by simpa using h)
              case le => exact baseOrd_chunk hcl.1 (by simpa using h)
              case gt => exact baseOrd_chunk hcl.1 (by simpa using h)
              case ge => exact baseOrd_chunk hcl.1 (by simpa using h)
              case eq => exact baseEq_chunk hcl.1 hcl.2 h
              case ne => exact baseEq_chunk hcl.1 hcl.2 h

/-- Evaluating a clean condition list appends, per condition, its values
to `data` in rendering order, so that the rendered strings and the
appended value runs line up one-to-one. -/
theorem renderConds_chunks :
    ∀ (cs : List Cond) (ctx : Ctx) (ss : List String) (ctx' : Ctx),
    cs.all cleanCond = true → renderConds cs ctx = .ok (ss, ctx') →
    ctx'.lastMethod = ctx.lastMethod ∧ ctx'.sql = ctx.sql ∧
    ctx'.selectCols = ctx.selectCols ∧
    ∃ chunks : List (String × List SqlValue),
      ss = chunks.map Prod.fst ∧
      ctx'.data = ctx.data ++ (chunks.map Prod.snd).flatten ∧
      ∀ p ∈ chunks, qCount p.1 = p.2.length := by
  intro cs
  induction cs with
  | nil =>
      intro ctx ss ctx' hcl h
      simp only [renderConds, Except.ok.injEq, Prod.mk.injEq] at h
      obtain ⟨hss, hctx⟩ := h
      subst hss
      subst hctx
      exact ⟨rfl, rfl, rfl, [], by simp, by simp, by simp⟩
  | cons c rest ih =>
      intro ctx ss ctx' hcl h
      simp only [List.all_cons, Bool.and_eq_true] at hcl
      simp only [renderConds] at h
      cases h1 : evalCond c ctx with
      | error e => simp only [h1] at h; exact absurd h (by simp)
      | ok pr =>
          obtain ⟨s1, ctx1⟩ := pr
          simp only [h1] at h
          cases h2 : renderConds rest ctx1 with
          | error e => simp only [h2] at h; exact absurd h (by simp)
          | ok pr2 =>
              obtain ⟨ss2, ctx2⟩ := pr2
              simp only [h2] at h
              simp only [Except.ok.injEq, Prod.mk.injEq] at h
              obtain ⟨hss, hctx⟩ := h
              subst hss
              subst hctx
              obtain ⟨e1, e2, e3, vs1, hd1, hq1⟩ := evalCond_chunk hcl.1 h1
              obtain ⟨f1, f2, f3, chunks, hss2, hd2, hq2⟩ :=
                ih ctx1 ss2 ctx2 hcl.2 h2
              refine ⟨f1.trans e1, f2.trans e2, f3.trans e3,
                (s1, vs1) :: chunks, by simp [hss2], ?_, ?_⟩
              · simp [hd2, hd1, List.append_assoc]
              · intro p hp
                rcases List.mem_cons.mp hp with rfl | hp2
                · exact hq1
                · exact hq2 p hp2

/-- Appending a placeholder-free fragment preserves alignment. -/
theorem Aligned.snocFrag {text : String} {data : List SqlValue}
    (h : Aligned text data) {frag : String} (hq : qCount frag = 0) :
    Aligned (text ++ frag) data := by
  obtain ⟨chunks, ht, hd, hc⟩ := h
  refine ⟨chunks ++ [(frag, [])], ?_, ?_, ?_⟩
  · simp [ht, joinS_append, joinS]
  · simp [hd]
  · intro p hp
    rcases List.mem_append.mp hp with hp1 | hp1
    · exact hc p hp1
    · simp at hp1
      subst hp1
      simpa using hq
  
/-- Appending a keyword plus a run of condition chunks preserves
alignment, the new values riding with their own rendered strings. -/
theorem Aligned.snocConds {text : String} {data : List SqlValue}
    (h : Aligned text data) {kw : String} (hkw : qCount kw = 0)
    {chunks : List (String × List SqlValue)}
    (hc : ∀ p ∈ chunks, qCount p.1 = p.2.length) :
    Aligned (text ++ (kw ++ joinS (chunks.map Prod.fst)))
      (data ++ (chunks.map Prod.snd).flatten) := by
  obtain ⟨chunks0, ht, hd, hc0⟩ := h
  refine ⟨chunks0 ++ (kw, []) :: chunks, ?_, ?_, ?_⟩
  · simp [ht, joinS_append, joinS]
  · simp [hd]
  · intro p hp
    rcases List.mem_append.mp hp with hp1 | hp1
    · exact hc0 p hp1
    · rcases List.mem_cons.mp hp1 with rfl | hp2
      · simpa using hkw
      · exact hc p hp2

/-- The total length of the value runs of a chunk list equals the sum of
the per-chunk placeholder counts. -/
theorem chunks_flatten_length {chunks : List (String × List SqlValue)}
    (hc : ∀ p ∈ chunks, qCount p.1 = p.2.length) :
    ((chunks.map Prod.snd).flatten).length =
      ((chunks.map Prod.fst).map qCount).sum := by
  induction chunks with
  | nil => simp
  | cons p rest ih =>
      simp only [List.map_cons, List.flatten_cons, List.length_append,
        List.sum_cons]
      rw [hc p (by simp), ih fun q hq => hc q (List.mem_cons_of_mem _ hq)]

/-- Appending a comma-joined run of condition chunks (the `Set` clause)
preserves alignment. -/
theorem Aligned.snocCommaConds {text : String} {data : List SqlValue}
    (h : Aligned text data) {chunks : List (String × List SqlValue)}
    (hc : ∀ p ∈ chunks, qCount p.1 = p.2.length) :
    Aligned (text ++ commaJoin (chunks.map Prod.fst))
      (data ++ (chunks.map Prod.snd).flatten) := by
  obtain ⟨chunks0, ht, hd, hc0⟩ := h
  refine ⟨chunks0 ++
    [(commaJoin (chunks.map Prod.fst), (chunks.map Prod.snd).flatten)],
    ?_, ?_, ?_⟩
  · simp [ht, joinS_append, joinS]
  · simp [hd]
  · intro p hp
    rcases List.mem_append.mp hp with hp1 | hp1
    · exact hc0 p hp1
    · simp only [List.mem_singleton] at hp1
      subst hp1
      simp only [qCount_commaJoin]
      exact (chunks_flatten_length hc).symm

/-- A freshly reset context with one placeholder-free fragment is
aligned. -/
theorem aligned_reset {frag : String} (hq : qCount frag = 0) :
    Aligned (joinS [frag]) [] := by
  refine ⟨[(frag, [])], by simp [joinS], by simp, ?_⟩
  intro p hp
  simp at hp
  subst hp
  simpa using hq

theorem flattenSelect_clean {args : List SelectArg}
    (h : args.all cleanSelectArg = true) :
    ∀ c ∈ flattenSelect args, cleanCol c = true := by
  intro c hc
  unfold flattenSelect at hc
  cases hf : args.find?
      (fun a => match a with | .alist _ => true | .acol _ => false) with
  | none =>
      rw [hf] at hc
      obtain ⟨a, ha, hfa⟩ := List.mem_filterMap.mp hc
      cases a with
      | acol c0 =>
          simp only [Option.some.injEq] at hfa
          subst hfa
          exact List.all_eq_true.mp h _ ha
      | alist l => simp at hfa
  | some a =>
      cases a with
      | acol c0 =>
          have := List.find?_some hf
          simp at this
      | alist l =>
          rw [hf] at hc
          have hmem := List.mem_of_find?_eq_some hf
          have hl := List.all_eq_true.mp h _ hmem
          simp only [cleanSelectArg] at hl
          exact List.all_eq_true.mp hl _ hc

theorem qCount_getName {t : Table} (h : cleanTable t = true) :
    qCount t.getName = 0 := by
  simp only [cleanTable, Bool.and_eq_true, beq_iff_eq] at h
  exact h.1

theorem qCount_createCol {c : Column} (h : cleanCol c = true) :
    qCount (createCol c) = 0 := by
  simp only [cleanCol, Bool.and_eq_true, beq_iff_eq] at h
  cases hk : c.kind <;> simp [createCol, hk, qCount_append, h.2] <;> decide

theorem joinS_single (s : String) : joinS [s] = s := by
  simp [joinS]

theorem Aligned.snocFragL {sqlL : List String} {data : List SqlValue}
    (h : Aligned (joinS sqlL) data) {frag : String} (hq : qCount frag = 0) :
    Aligned (joinS (sqlL ++ [frag])) data := by
  rw [joinS_append, joinS_single]
  exact h.snocFrag hq

theorem Aligned.snocCondsL {sqlL : List String} {data : List SqlValue}
    (h : Aligned (joinS sqlL) data) {kw : String} (hkw : qCount kw = 0)
    {chunks : List (String × List SqlValue)}
    (hc : ∀ p ∈ chunks, qCount p.1 = p.2.length) :
    Aligned (joinS (sqlL ++ [kw ++ joinS (chunks.map Prod.fst)]))
      (data ++ (chunks.map Prod.snd).flatten) := by
  rw [joinS_append, joinS_single]
  exact h.snocConds hkw hc

theorem Aligned.snocCommaCondsL {sqlL : List String} {data : List SqlValue}
    (h : Aligned (joinS sqlL) data)
    {chunks : List (String × List SqlValue)}
    (hc : ∀ p ∈ chunks, qCount p.1 = p.2.length) :
    Aligned (joinS (sqlL ++ [commaJoin (chunks.map Prod.fst)]))
      (data ++ (chunks.map Prod.snd).flatten) := by
  rw [joinS_append, joinS_single]
  exact h.snocCommaConds hc

theorem Aligned.snocBracketCondsL {sqlL : List String} {data : List SqlValue}
    (h : Aligned (joinS sqlL) data)
    {chunks : List (String × List SqlValue)}
    (hc : ∀ p ∈ chunks, qCount p.1 = p.2.length) :
    Aligned (joinS (sqlL ++ [" (", joinS (chunks.map Prod.fst)]))
      (data ++ (chunks.map Prod.snd).flatten) := by
  rw [joinS_append]
  have h2 : joinS [" (", joinS (chunks.map Prod.fst)] =
      " (" ++ joinS (chunks.map Prod.fst) := by
    simp [joinS]
  rw [h2]
  exact h.snocConds (by decide) hc

theorem checkOrder_Select (ctx : Ctx) :
    checkOrder "Select" ctx = .ok ⟨"Select", [], [], ctx.selectCols⟩ := by
  simp [checkOrder]

theorem checkOrder_Delete (ctx : Ctx) :
    checkOrder "Delete" ctx = .ok ⟨"Delete", [], [], ctx.selectCols⟩ := by
  simp [checkOrder]

theorem checkOrder_Update (ctx : Ctx) :
    checkOrder "Update" ctx = .ok ⟨"Update", [], [], ctx.selectCols⟩ := by
  simp [checkOrder]

theorem checkOrder_Insert (ctx : Ctx) :
    checkOrder "Insert" ctx = .ok ⟨"Insert", [], [], ctx.selectCols⟩ := by
  simp [checkOrder]

theorem checkOrder_CreateTable (ctx : Ctx) :
    checkOrder "CreateTable" ctx = .ok ⟨"CreateTable", [], [], ctx.selectCols⟩ := by
  simp [checkOrder]

theorem checkOrder_DropTable (ctx : Ctx) :
    checkOrder "DropTable" ctx = .ok ⟨"DropTable", [], [], ctx.selectCols⟩ := by
  simp [checkOrder]

theorem checkOrder_From (ctx : Ctx) :
    checkOrder "From" ctx =
      if ctx.lastMethod = "Select" ∨ ctx.lastMethod = "Delete"
      then .ok ⟨"From", ctx.data, ctx.sql, ctx.selectCols⟩
      else .error .invalidOrder := by
  simp [checkOrder]

theorem checkOrder_Where (ctx : Ctx) :
    checkOrder "Where" ctx =
      if ctx.lastMethod = "From" ∨ ctx.lastMethod = "Set" ∨ ctx.lastMethod = "Update"
      then .ok ⟨"Where", ctx.data, ctx.sql, ctx.selectCols⟩
      else .error .invalidOrder := by
  simp [checkOrder]

theorem checkOrder_And (ctx : Ctx) :
    checkOrder "And" ctx =
      if ctx.lastMethod = "Where" ∨ ctx.lastMethod = "Or" ∨ ctx.lastMethod = "And"
      then .ok ⟨"And", ctx.data, ctx.sql, ctx.selectCols⟩
      else .error .invalidOrder := by
  simp [checkOrder]

theorem checkOrder_Or (ctx : Ctx) :
    checkOrder "Or" ctx =
      if ctx.lastMethod = "Where" ∨ ctx.lastMethod = "And" ∨ ctx.lastMethod = "Or"
      then .ok ⟨"Or", ctx.data, ctx.sql, ctx.selectCols⟩
      else .error .invalidOrder := by
  simp [checkOrder]

theorem checkOrder_InnerJoin (ctx : Ctx) :
    checkOrder "InnerJoin" ctx =
      if ctx.lastMethod = "From"
      then .ok ⟨"Join", ctx.data, ctx.sql, ctx.selectCols⟩
      else .error .invalidOrder := by
  simp [checkOrder]

theorem checkOrder_LeftJoin (ctx : Ctx) :
    checkOrder "LeftJoin" ctx =
      if ctx.lastMethod = "From"
      then .ok ⟨"Join", ctx.data, ctx.sql, ctx.selectCols⟩
      else .error .invalidOrder := by
  simp [checkOrder]

theorem checkOrder_RightJoin (ctx : Ctx) :
    checkOrder "RightJoin" ctx =
      if ctx.lastMethod = "From"
      then .ok ⟨"Join", ctx.data, ctx.sql, ctx.selectCols⟩
      else .error .invalidOrder := by
  simp [checkOrder]

theorem checkOrder_OuterJoin (ctx : Ctx) :
    checkOrder "OuterJoin" ctx =
      if ctx.lastMethod = "From"
      then .ok ⟨"Join", ctx.data, ctx.sql, ctx.selectCols⟩
      else .error .invalidOrder := by
  simp [checkOrder]

theorem checkOrder_On (ctx : Ctx) :
    checkOrder "On" ctx =
      if ctx.lastMethod = "Join"
      then .ok ⟨"On", ctx.data, ctx.sql, ctx.selectCols⟩
      else .error .invalidOrder := by
  simp [checkOrder]

theorem checkOrder_Set (ctx : Ctx) : checkOrder "Set" ctx = .ok ctx := by
  simp [checkOrder]

theorem checkOrder_Columns (ctx : Ctx) : checkOrder "Columns" ctx = .ok ctx := by
  simp [checkOrder]

theorem checkOrder_Values (ctx : Ctx) : checkOrder "Values" ctx = .ok ctx := by
  simp [checkOrder]

/-- One successful clean fluent call preserves placeholder/parameter
alignment of the shared context. -/
theorem stepFluent_aligned {op : FOp} {ctx ctx' : Ctx}
    (hcl : cleanFOp op = true) (h : stepFluent op ctx = .ok ctx')
    (ha : Aligned (joinS ctx.sql) ctx.data) :
    Aligned (joinS ctx'.sql) ctx'.data := by
  cases op with
  | select args =>
      simp only [cleanFOp] at hcl
      simp only [stepFluent, stepClause, clauseName, checkOrder_Select,
        clauseBody, List.nil_append, Except.ok.injEq] at h
      subst h
      refine aligned_reset ?_
      have hcj : qCount (commaJoin ((flattenSelect args).map colRef)) = 0 := by
        refine qCount_commaJoin_zero ?_
        intro s hs
        obtain ⟨c, hc2, rfl⟩ := List.mem_map.mp hs
        exact qCount_colRef (flattenSelect_clean hcl c hc2)
      simp only [qCount_append, hcj]
      decide
  | update t =>
      simp only [cleanFOp] at hcl
      simp only [stepFluent, stepClause, clauseName, checkOrder_Update,
        clauseBody, List.nil_append, Except.ok.injEq] at h
      subst h
      refine aligned_reset ?_
      simp only [qCount_append, qCount_getName hcl]
      decide
  | insert t =>
      simp only [cleanFOp] at hcl
      simp only [stepFluent, stepClause, clauseName, checkOrder_Insert,
        clauseBody, List.nil_append, Except.ok.injEq] at h
      subst h
      refine aligned_reset ?_
      simp only [qCount_append, qCount_getName hcl]
      decide
  | delete =>
      simp only [stepFluent, stepClause, clauseName, checkOrder_Delete,
        clauseBody, List.nil_append, Except.ok.injEq] at h
      subst h
      exact aligned_reset (by decide)
  | createTable t =>
      simp only [cleanFOp] at hcl
      have hcl2 := hcl
      simp only [cleanTable, Bool.and_eq_true, beq_iff_eq] at hcl2
      simp only [stepFluent, stepClause, clauseName, checkOrder_CreateTable,
        clauseBody, List.nil_append, Except.ok.injEq] at h
      subst h
      refine aligned_reset ?_
      have hcj : qCount (commaJoin (t.cols.map createCol)) = 0 := by
        refine qCount_commaJoin_zero ?_
        intro s hs
        obtain ⟨c, hc2, rfl⟩ := List.mem_map.mp hs
        exact qCount_createCol (List.all_eq_true.mp hcl2.2 c hc2)
      simp only [qCount_append, hcl2.1, hcj]
      decide
  | dropTable t =>
      simp only [cleanFOp] at hcl
      simp only [stepFluent, stepClause, clauseName, checkOrder_DropTable,
        clauseBody, List.nil_append, Except.ok.injEq] at h
      subst h
      refine aligned_reset ?_
      simp only [qCount_append, qCount_getName hcl]
      decide
  | fromT ts =>
      simp only [cleanFOp] at hcl
      simp only [stepFluent, stepClause, clauseName, checkOrder_From] at h
      by_cases hord : ctx.lastMethod = "Select" ∨ ctx.lastMethod = "Delete"
      · rw [if_pos hord] at h
        simp only [clauseBody, Except.ok.injEq] at h
        subst h
        refine ha.snocFragL ?_
        have hcj : qCount (commaJoin (ts.map Table.getName)) = 0 := by
          refine qCount_commaJoin_zero ?_
          intro s hs
          obtain ⟨t, ht, rfl⟩ := List.mem_map.mp hs
          exact qCount_getName (List.all_eq_true.mp hcl t ht)
        simp only [qCount_append, hcj]
        decide
      · rw [if_neg hord] at h
        simp at h
  | innerJoin t =>
      simp only [cleanFOp] at hcl
      simp only [stepFluent, stepClause, clauseName, checkOrder_InnerJoin] at h
      by_cases hord : ctx.lastMethod = "From"
      · rw [if_pos hord] at h
        simp only [clauseBody, Except.ok.injEq] at h
        subst h
        refine ha.snocFragL ?_
        simp only [qCount_append, qCount_getName hcl]
        decide
      · rw [if_neg hord] at h
        simp at h
  | outerJoin t =>
      simp only [cleanFOp] at hcl
      simp only [stepFluent, stepClause, clauseName, checkOrder_OuterJoin] at h
      by_cases hord : ctx.lastMethod = "From"
      · rw [if_pos hord] at h
        simp only [clauseBody, Except.ok.injEq] at h
        subst h
        refine ha.snocFragL ?_
        simp only [qCount_append, qCount_getName hcl]
        decide
      · rw [if_neg hord] at h
        simp at h
  | leftJoin t =>
      simp only [cleanFOp] at hcl
      simp only [stepFluent, stepClause, clauseName, checkOrder_LeftJoin] at h
      by_cases hord : ctx.lastMethod = "From"
      · rw [if_pos hord] at h
        simp only [clauseBody, Except.ok.injEq] at h
        subst h
        refine ha.snocFragL ?_
        simp only [qCount_append, qCount_getName hcl]
        decide
      · rw [if_neg hord] at h
        simp at h
  | rightJoin t =>
      simp only [cleanFOp] at hcl
      simp only [stepFluent, stepClause, clauseName, checkOrder_RightJoin] at h
      by_cases hord : ctx.lastMethod = "From"
      · rw [if_pos hord] at h
        simp only [clauseBody, Except.ok.injEq] at h
        subst h
        refine ha.snocFragL ?_
        simp only [qCount_append, qCount_getName hcl]
        decide
      · rw [if_neg hord] at h
        simp at h
  | columns cs =>
      simp only [cleanFOp] at hcl
      simp only [stepFluent, stepClause, clauseName, checkOrder_Columns,
        clauseBody, Except.ok.injEq] at h
      subst h
      refine ha.snocFragL ?_
      have hcj : qCount (commaJoin (cs.map Column.name)) = 0 := by
        refine qCount_commaJoin_zero ?_
        intro s hs
        obtain ⟨c, hc2, rfl⟩ := List.mem_map.mp hs
        have hc3 := List.all_eq_true.mp hcl c hc2
        simp only [cleanCol, Bool.and_eq_true, beq_iff_eq] at hc3
        exact hc3.2
      simp only [qCount_append, hcj]
      decide
  | values vs =>
      simp only [cleanFOp] at hcl
      simp only [stepFluent, stepClause, clauseName, checkOrder_Values,
        clauseBody, Except.ok.injEq] at h
      subst h
      refine ha.snocFragL ?_
      have hcj : qCount (commaJoin (vs.map valuesItem)) = 0 := by
        refine qCount_commaJoin_zero ?_
        intro s hs
        obtain ⟨v, hv, rfl⟩ := List.mem_map.mp hs
        exact qCount_valuesItem (List.all_eq_true.mp hcl v hv)
      simp only [qCount_append, hcj]
      decide
  | whereC cs =>
      simp only [cleanFOp] at hcl
      simp only [stepFluent] at h
      cases hr : renderConds cs ctx with
      | error e => simp only [hr] at h; exact absurd h (by simp)
      | ok pr =>
          obtain ⟨ss, ctx1⟩ := pr
          simp only [hr] at h
          obtain ⟨e1, e2, e3, chunks, hss, hd, hq⟩ :=
            renderConds_chunks cs ctx ss ctx1 hcl hr
          simp only [stepClause, clauseName, checkOrder_Where] at h
          by_cases hord : ctx1.lastMethod = "From" ∨ ctx1.lastMethod = "Set" ∨ ctx1.lastMethod = "Update"
          · rw [if_pos hord] at h
            simp only [clauseBody, Except.ok.injEq] at h
            subst h
            rw [e2, hd, hss]
            exact ha.snocCondsL (by decide) hq
          · rw [if_neg hord] at h
            simp at h
  | andC cs =>
      simp only [cleanFOp] at hcl
      simp only [stepFluent] at h
      cases hr : renderConds cs ctx with
      | error e => simp only [hr] at h; exact absurd h (by simp)
      | ok pr =>
          obtain ⟨ss, ctx1⟩ := pr
          simp only [hr] at h
          obtain ⟨e1, e2, e3, chunks, hss, hd, hq⟩ :=
            renderConds_chunks cs ctx ss ctx1 hcl hr
          simp only [stepClause, clauseName, checkOrder_And] at h
          by_cases hord : ctx1.lastMethod = "Where" ∨ ctx1.lastMethod = "Or" ∨ ctx1.lastMethod = "And"
          · rw [if_pos hord] at h
            simp only [clauseBody, Except.ok.injEq] at h
            subst h
            rw [e2, hd, hss]
            exact ha.snocCondsL (by decide) hq
          · rw [if_neg hord] at h
            simp at h
  | orC cs =>
      simp only [cleanFOp] at hcl
      simp only [stepFluent] at h
      cases hr : renderConds cs ctx with
      | error e => simp only [hr] at h; exact absurd h (by simp)
      | ok pr =>
          obtain ⟨ss, ctx1⟩ := pr
          simp only [hr] at h
          obtain ⟨e1, e2, e3, chunks, hss, hd, hq⟩ :=
            renderConds_chunks cs ctx ss ctx1 hcl hr
          simp only [stepClause, clauseName, checkOrder_Or] at h
          by_cases hord : ctx1.lastMethod = "Where" ∨ ctx1.lastMethod = "And" ∨ ctx1.lastMethod = "Or"
          · rw [if_pos hord] at h
            simp only [clauseBody, Except.ok.injEq] at h
            subst h
            rw [e2, hd, hss]
            exact ha.snocCondsL (by decide) hq
          · rw [if_neg hord] at h
            simp at h
  | onC cs =>
      simp only [cleanFOp] at hcl
      simp only [stepFluent] at h
      cases hr : renderConds cs ctx with
      | error e => simp only [hr] at h; exact absurd h (by simp)
      | ok pr =>
          obtain ⟨ss, ctx1⟩ := pr
          simp only [hr] at h
          obtain ⟨e1, e2, e3, chunks, hss, hd, hq⟩ :=
            renderConds_chunks cs ctx ss ctx1 hcl hr
          simp only [stepClause, clauseName, checkOrder_On] at h
          by_cases hord : ctx1.lastMethod = "Join"
          · rw [if_pos hord] at h
            simp only [clauseBody, Except.ok.injEq] at h
            subst h
            rw [e2, hd, hss]
            exact ha.snocCondsL (by decide) hq
          · rw [if_neg hord] at h
            simp at h
  | setC cs =>
      simp only [cleanFOp] at hcl
      simp only [stepFluent] at h
      cases hr : renderConds cs ctx with
      | error e => simp only [hr] at h; exact absurd h (by simp)
      | ok pr =>
          obtain ⟨ss, ctx1⟩ := pr
          simp only [hr] at h
          obtain ⟨e1, e2, e3, chunks, hss, hd, hq⟩ :=
            renderConds_chunks cs ctx ss ctx1 hcl hr
          simp only [stepClause, clauseName, checkOrder_Set,
            clauseBody, Except.ok.injEq] at h
          subst h
          rw [e2, hd, hss]
          exact ha.snocCommaCondsL hq
  | leftBracketC cs =>
      simp only [cleanFOp] at hcl
      simp only [stepFluent] at h
      cases hr : renderConds cs ctx with
      | error e => simp only [hr] at h; exact absurd h (by simp)
      | ok pr =>
          obtain ⟨ss, ctx1⟩ := pr
          simp only [hr, leftBracket, Except.ok.injEq] at h
          obtain ⟨e1, e2, e3, chunks, hss, hd, hq⟩ :=
            renderConds_chunks cs ctx ss ctx1 hcl hr
          subst h
          rw [e2, hd, hss]
          exact ha.snocBracketCondsL hq
  | rightBracketC =>
      simp only [stepFluent, rightBracket, Except.ok.injEq] at h
      subst h
      exact ha.snocFragL (by decide)

/-- Alignment is preserved along any successful clean fluent run. -/
theorem runFluent_aligned :
    ∀ (ops : List FOp) (ctx ctx' : Ctx), ops.all cleanFOp = true →
    runFluent ops ctx = .ok ctx' → Aligned (joinS ctx.sql) ctx.data →
    Aligned (joinS ctx'.sql) ctx'.data := by
  intro ops
  induction ops with
  | nil =>
      intro ctx ctx' hcl h ha
      simp only [runFluent, Except.ok.injEq] at h
      subst h
      exact ha
  | cons op rest ih =>
      intro ctx ctx' hcl h ha
      simp only [List.all_cons, Bool.and_eq_true] at hcl
      simp only [runFluent] at h
      cases h1 : stepFluent op ctx with
      | error e => simp only [h1] at h; exact absurd h (by simp)
      | ok ctx1 =>
          simp only [h1] at h
          exact ih ctx1 ctx' hcl.2 h (stepFluent_aligned hcl.1 h1 ha)

/-- The query of `main.GetUsersMapping`, in fluent form. -/
def c1demoOps : List FOp :=
  [.select [.acol usersId, .acol usersLogin], .fromT [usersTable],
   .whereC [.cmp usersLastLogin .lt (.lit (.VStr "2012-01-01"))],
   .andC [.cmp usersLogin .ne (.lit (.VStr "admin"))]]

/-- The context that query leaves behind. -/
def c1demoCtx : Ctx :=
  ⟨"And", [.VStr "2012-01-01", .VStr "admin"],
   ["SELECT Users.id, Users.login", " FROM users",
    " WHERE Users.last_login_time < ?", " AND Users.login != ?"],
   ["Users.id", "Users.login"]⟩

/-- A successful raw call sequence that renders two comparisons in one
order but hands only the second to `Where`: every builder call succeeds,
yet the final text has one placeholder and the parameter list has two
entries, the first of which no placeholder corresponds to. -/
def c1misuse : Except PyErr Ctx := do
  let a ← stepClause (.select [.acol usersId]) initCtx
  let b ← stepClause (.fromT [usersTable]) a
  let (_s1, c) ← evalCond (.cmp usersId .lt (.lit (.VInt 5))) b
  let (s2, d) ← evalCond (.cmp usersLogin .ne (.lit (.VStr "x"))) c
  stepClause (.whereC [s2]) d

/-- The context `c1misuse` leaves behind. -/
def c1misCtx : Ctx :=
  ⟨"Where", [.VInt 5, .VStr "x"],
   ["SELECT Users.id", " FROM users", " WHERE Users.login != ?"],
   ["Users.id"]⟩

/-- Claim C1 (amended): for a fluent sequence of successful builder calls
— each clause call consuming exactly the conditions rendered for it, in
rendering order — whose column/table names and inlined literals contain no
`?` character, the final joined statement text is aligned with the
accumulated parameter list: it decomposes into chunks in call order, each
carrying exactly as many `?` placeholders as the values its rendering
appended, so the Nth `?` corresponds to the Nth parameter.  (The claim as
stated, over arbitrary successful call sequences, is refuted by
`C1_misordered_conditions_counterexample`.) -/
theorem C1_fluent_placeholder_alignment (ops : List FOp) (ctx' : Ctx)
    (hcl : ops.all cleanFOp = true) (h : runFluent ops initCtx = .ok ctx') :
    Aligned (joinS ctx'.sql) ctx'.data :=
  runFluent_aligned ops initCtx ctx' hcl h
    ⟨[], by simp [initCtx, joinS], by simp [initCtx], by simp⟩

/-- Witness: the demo query of `main.GetUsersMapping` run fluently is
aligned. -/
theorem C1_fluent_placeholder_alignment_witness :
    Aligned (joinS c1demoCtx.sql) c1demoCtx.data :=
  C1_fluent_placeholder_alignment c1demoOps c1demoCtx (by decide) (by rfl)

/-- Claim C1, as stated, is false: `c1misuse` is a sequence of successful
builder calls (two comparisons rendered, the second one passed to
`Where`), yet its final context has two accumulated parameters and a
single `?` placeholder — the placeholder was rendered by the comparison
that appended the second parameter, so the Nth-`?`-to-Nth-parameter
correspondence fails. -/
theorem C1_misordered_conditions_counterexample :
    c1misuse = .ok c1misCtx ∧ qCount (joinS c1misCtx.sql) = 1 ∧
    c1misCtx.data.length = 2 ∧
    ¬ Aligned (joinS c1misCtx.sql) c1misCtx.data := by
  refine ⟨rfl, by decide, by decide, fun hal => ?_⟩
  have h1 := hal.count
  have h2 : qCount (joinS c1misCtx.sql) = 1 := by decide
  have h3 : c1misCtx.data.length = 2 := by decide
  rw [h2, h3] at h1
  exact absurd h1 (by decide)

/-- Outside the Join state, a successful equal/not-equal renders
`left <op> ?` and appends exactly the rendered operand. -/
theorem baseEq_nonJoin {c : Column} {op : CmpOp} {rhs : Operand} {ctx : Ctx}
    {s : String} {ctx' : Ctx} (hJ : ctx.lastMethod ≠ "Join")
    (h : baseEq c op rhs ctx = .ok (s, ctx')) :
    s = eqLeft ctx c ++ ordSym op ++ "?" ∧
    ctx' = ⟨ctx.lastMethod, ctx.data ++ [eqRendered ctx rhs], ctx.sql,
      ctx.selectCols⟩ := by
  unfold baseEq at h
  rw [if_neg hJ] at h
  simp only [Except.ok.injEq, Prod.mk.injEq] at h
  exact ⟨h.1.symm, h.2.symm⟩

/-- In the Join state, a successful equal/not-equal leaves the context
untouched (the rendered operand is inlined into the text). -/
theorem baseEq_Join {c : Column} {op : CmpOp} {rhs : Operand} {ctx : Ctx}
    {s : String} {ctx' : Ctx} (hJ : ctx.lastMethod = "Join")
    (h : baseEq c op rhs ctx = .ok (s, ctx')) : ctx' = ctx := by
  unfold baseEq at h
  rw [if_pos hJ] at h
  cases hr : eqRendered ctx rhs with
  | VInt n => rw [hr] at h; simp at h
  | VStr s0 =>
      rw [hr] at h
      simp only [Except.ok.injEq, Prod.mk.injEq] at h
      exact h.2.symm

/-- A successful equal/not-equal dispatch always went through the base
`__eq__`/`__ne__` (each subclass validator only filters). -/
theorem evalCmp_eqne_to_baseEq {c : Column} {op : CmpOp} {rhs : Operand}
    {ctx : Ctx} {s : String} {ctx' : Ctx}
    (hop : op = CmpOp.eq ∨ op = CmpOp.ne)
    (h : evalCmp c op rhs ctx = .ok (s, ctx')) :
    baseEq c op rhs ctx = .ok (s, ctx') := by
  obtain ⟨tbl, nm, k⟩ := c
  cases k with
  | int =>
      simp only [evalCmp] at h
      cases hv : intValidate rhs with
      | error e => rw [hv] at h; simp at h
      | ok u =>
          rw [hv] at h
          rcases hop with rfl | rfl <;> exact h
  | text =>
      simp only [evalCmp] at h
      rcases hop with rfl | rfl <;>
        · cases hv : strValidate rhs with
          | error e => rw [hv] at h; simp at h
          | ok u => rw [hv] at h; exact h
  | datetime =>
      simp only [evalCmp] at h
      cases hv : dtValidate rhs with
      | error e => rw [hv] at h; simp at h
      | ok u =>
          rw [hv] at h
          rcases hop with rfl | rfl <;> exact h

/-- A successful ordering comparison always went through the base
ordering implementation (on Text it cannot succeed at all). -/
theorem evalCmp_ord_to_baseOrd {c : Column} {op : CmpOp} {rhs : Operand}
    {ctx : Ctx} {s : String} {ctx' : Ctx}
    (hop : op = CmpOp.lt ∨ op = CmpOp.le ∨ op = CmpOp.gt ∨ op = CmpOp.ge)
    (h : evalCmp c op rhs ctx = .ok (s, ctx')) :
    baseOrd c op rhs ctx = (s, ctx') := by
  obtain ⟨tbl, nm, k⟩ := c
  cases k with
  | int =>
      simp only [evalCmp] at h
      cases hv : intValidate rhs with
      | error e => rw [hv] at h; simp at h
      | ok u =>
          rw [hv] at h
          rcases hop with rfl | rfl | rfl | rfl <;> simpa using h
  | text =>
      simp only [evalCmp] at h
      rcases hop with rfl | rfl | rfl | rfl
      · simp at h
      all_goals
        cases hv : strValidate rhs with
        | error e => rw [hv] at h; simp at h
        | ok u => rw [hv] at h; simp at h
  | datetime =>
      simp only [evalCmp] at h
      cases hv : dtValidate rhs with
      | error e => rw [hv] at h; simp at h
      | ok u =>
          rw [hv] at h
          rcases hop with rfl | rfl | rfl | rfl <;> simpa using h

/-- Claim C2 (amended): outside the Join state, a successful equality or
inequality against a literal appends exactly one entry (the literal);
against another Column it ALSO appends exactly one entry, holding the
rendered column-reference string rather than nothing.  Only in the Join
state (condition built as an `On` argument) is the operand rendered into
the text with zero entries appended, as the claim describes. -/
theorem C2_eqne_parameter_counts :
    ∀ (c c2 : Column) (v : SqlValue) (ctx : Ctx) (s : String) (ctx' : Ctx),
    (ctx.lastMethod ≠ "Join" →
      evalCond (.cmp c .eq (.lit v)) ctx = .ok (s, ctx') →
      ctx'.data = ctx.data ++ [v]) ∧
    (ctx.lastMethod ≠ "Join" →
      evalCond (.cmp c .ne (.lit v)) ctx = .ok (s, ctx') →
      ctx'.data = ctx.data ++ [v]) ∧
    (ctx.lastMethod = "Join" →
      evalCond (.cmp c .eq (.col c2)) ctx = .ok (s, ctx') →
      ctx'.data = ctx.data) ∧
    (ctx.lastMethod ≠ "Join" →
      evalCond (.cmp c .eq (.col c2)) ctx = .ok (s, ctx') →
      ctx'.data = ctx.data ++ [eqRendered ctx (.col c2)]) := by
  intro c c2 v ctx s ctx'
  refine ⟨?_, ?_, ?_, ?_⟩
  · intro hJ h
    simp only [evalCond] at h
    obtain ⟨_, h2⟩ := baseEq_nonJoin hJ (evalCmp_eqne_to_baseEq (Or.inl rfl) h)
    subst h2
    rfl
  · intro hJ h
    simp only [evalCond] at h
    obtain ⟨_, h2⟩ := baseEq_nonJoin hJ (evalCmp_eqne_to_baseEq (Or.inr rfl) h)
    subst h2
    rfl
  · intro hJ h
    simp only [evalCond] at h
    have h2 := baseEq_Join hJ (evalCmp_eqne_to_baseEq (Or.inl rfl) h)
    subst h2
    rfl
  · intro hJ h
    simp only [evalCond] at h
    obtain ⟨_, h2⟩ := baseEq_nonJoin hJ (evalCmp_eqne_to_baseEq (Or.inl rfl) h)
    subst h2
    rfl

/-- Witness for C2: a Text equality on a literal in the From state pushes
exactly the literal; an Integer equality on a Column in the Join state
pushes nothing; the same comparison in the From state pushes the rendered
reference. -/
theorem C2_eqne_parameter_counts_witness :
    (⟨"From", [SqlValue.VStr "Greg"], [], []⟩ : Ctx).data =
      ([] : List SqlValue) ++ [SqlValue.VStr "Greg"] ∧
    (⟨"Join", [], [], []⟩ : Ctx).data = (⟨"Join", [], [], []⟩ : Ctx).data ∧
    (⟨"From", [SqlValue.VStr "Managers.id"], [], []⟩ : Ctx).data =
      ([] : List SqlValue) ++ [eqRendered ⟨"From", [], [], []⟩ (.col managersId)] :=
  ⟨(C2_eqne_parameter_counts usersLogin managersId (.VStr "Greg")
      ⟨"From", [], [], []⟩ "Users.login = ?"
      ⟨"From", [SqlValue.VStr "Greg"], [], []⟩).1 (by decide) (by rfl),
   (C2_eqne_parameter_counts usersId managersId (.VStr "Greg")
      ⟨"Join", [], [], []⟩ "Users.id = Managers.id"
      ⟨"Join", [], [], []⟩).2.2.1 (by rfl) (by rfl),
   (C2_eqne_parameter_counts usersId managersId (.VStr "Greg")
      ⟨"From", [], [], []⟩ "Users.id = ?"
      ⟨"From", [SqlValue.VStr "Managers.id"], [], []⟩).2.2.2 (by decide) (by rfl)⟩

/-- Counterexample to C2 as stated: in the From state (an ordinary
`Where` argument), `Users.id == Managers.id` succeeds and appends one
entry — the string `"Managers.id"` — to the parameter list, not zero. -/
theorem C2_column_operand_pushes_counterexample :
    evalCond (.cmp usersId .eq (.col managersId)) ⟨"From", [], [], []⟩ =
      .ok ("Users.id = ?", ⟨"From", [SqlValue.VStr "Managers.id"], [], []⟩) ∧
    [SqlValue.VStr "Managers.id"] ≠ ([] : List SqlValue) :=
  ⟨rfl, by decide⟩

/-- Claim C4 (amended): the four ordering comparisons parameterize their
operand in every clause state — the fragment ends in `?` and the rendered
operand is appended to the parameter list — and equality/inequality do so
in every state except Join, where the operand is inlined as text with no
placeholder (see the counterexample). -/
theorem C4_comparisons_parameterize :
    ∀ (c : Column) (op : CmpOp) (rhs : Operand) (ctx : Ctx) (s : String)
      (ctx' : Ctx),
    ((op = CmpOp.lt ∨ op = CmpOp.le ∨ op = CmpOp.gt ∨ op = CmpOp.ge) →
      evalCond (.cmp c op rhs) ctx = .ok (s, ctx') →
      s = colRef c ++ ordSym op ++ "?" ∧
      ctx'.data = ctx.data ++ [renderOperand rhs]) ∧
    ((op = CmpOp.eq ∨ op = CmpOp.ne) → ctx.lastMethod ≠ "Join" →
      evalCond (.cmp c op rhs) ctx = .ok (s, ctx') →
      s = eqLeft ctx c ++ ordSym op ++ "?" ∧
      ctx'.data = ctx.data ++ [eqRendered ctx rhs]) := by
  intro c op rhs ctx s ctx'
  constructor
  · intro hop h
    simp only [evalCond] at h
    have h2 := evalCmp_ord_to_baseOrd hop h
    simp only [baseOrd, Prod.mk.injEq] at h2
    obtain ⟨h3, h4⟩ := h2
    subst h3
    subst h4
    exact ⟨rfl, rfl⟩
  · intro hop hJ h
    simp only [evalCond] at h
    obtain ⟨h3, h4⟩ := baseEq_nonJoin hJ (evalCmp_eqne_to_baseEq hop h)
    subst h4
    exact ⟨h3, rfl⟩

/-- Witness for C4: `Users.id < 2` from the initial state renders a `?`
and pushes `2`; `Users.login == 'Greg'` in the From state renders a `?`
and pushes `'Greg'`. -/
theorem C4_comparisons_parameterize_witness :
    ("Users.id < ?" = colRef usersId ++ ordSym .lt ++ "?" ∧
      (⟨"", [SqlValue.VInt 2], [], []⟩ : Ctx).data =
        ([] : List SqlValue) ++ [renderOperand (.lit (.VInt 2))]) ∧
    ("Users.login = ?" = eqLeft ⟨"From", [], [], []⟩ usersLogin ++ ordSym .eq ++ "?" ∧
      (⟨"From", [SqlValue.VStr "Greg"], [], []⟩ : Ctx).data =
        ([] : List SqlValue) ++ [eqRendered ⟨"From", [], [], []⟩ (.lit (.VStr "Greg"))]) :=
  ⟨(C4_comparisons_parameterize usersId .lt (.lit (.VInt 2)) initCtx
      "Users.id < ?" ⟨"", [SqlValue.VInt 2], [], []⟩).1 (by decide) (by rfl),
   (C4_comparisons_parameterize usersLogin .eq (.lit (.VStr "Greg"))
      ⟨"From", [], [], []⟩ "Users.login = ?"
      ⟨"From", [SqlValue.VStr "Greg"], [], []⟩).2 (by decide) (by decide) (by rfl)⟩

/-- Counterexample to C4 as stated: in the Join state a `==` against a
string literal succeeds, inlines the literal into the fragment with no
`?`, and pushes nothing — the operand does not travel through the
parameter list. -/
theorem C4_join_inlines_counterexample :
    evalCond (.cmp usersLogin .eq (.lit (.VStr "x or 1=1"))) ⟨"Join", [], [], []⟩ =
      .ok ("Users.login = x or 1=1", ⟨"Join", [], [], []⟩) ∧
    qCount "Users.login = x or 1=1" = 0 :=
  ⟨rfl, by decide⟩

/-- The §4.2 legal-predecessor table, read off the spec (and the
`check_order` source): `none` means the clause is not governed by the
order machine. -/
def legalPreds : String → Option (List String)
  | "From" => some ["Select", "Delete"]
  | "Where" => some ["From", "Set", "Update"]
  | "And" => some ["Where", "Or", "And"]
  | "Or" => some ["Where", "And", "Or"]
  | "InnerJoin" => some ["From"]
  | "LeftJoin" => some ["From"]
  | "RightJoin" => some ["From"]
  | "OuterJoin" => some ["From"]
  | "On" => some ["Join"]
  | _ => none

/-- Claim C3: a clause method called while the state is not in its
legal-predecessor set fails with `InvalidOrderError`; since the raise
happens before the clause body and before any assignment, the error
return carries no mutation — no fragment is appended, no parameter is
added, and the clause state is unchanged. -/
theorem C3_invalid_order_rejected :
    ∀ (c : Clause) (ctx : Ctx) (ps : List String),
    legalPreds (clauseName c) = some ps → ctx.lastMethod ∉ ps →
    stepClause c ctx = .error .invalidOrder := by
  intro c ctx ps hp hnot
  cases c
  case select args => simp [clauseName, legalPreds] at hp
  case update t => simp [clauseName, legalPreds] at hp
  case insert t => simp [clauseName, legalPreds] at hp
  case delete => simp [clauseName, legalPreds] at hp
  case columns cs => simp [clauseName, legalPreds] at hp
  case values vs => simp [clauseName, legalPreds] at hp
  case setC ss => simp [clauseName, legalPreds] at hp
  case createTable t => simp [clauseName, legalPreds] at hp
  case dropTable t => simp [clauseName, legalPreds] at hp
  case fromT ts =>
      have he : legalPreds "From" = some ["Select", "Delete"] := rfl
      rw [clauseName] at hp
      rw [he, Option.some.injEq] at hp
      subst hp
      simp only [stepClause, clauseName, checkOrder_From]
      rw [if_neg (by simpa using hnot)]
  case whereC ss =>
      have he : legalPreds "Where" = some ["From", "Set", "Update"] := rfl
      rw [clauseName] at hp
      rw [he, Option.some.injEq] at hp
      subst hp
      simp only [stepClause, clauseName, checkOrder_Where]
      rw [if_neg (by simpa using hnot)]
  case andC ss =>
      have he : legalPreds "And" = some ["Where", "Or", "And"] := rfl
      rw [clauseName] at hp
      rw [he, Option.some.injEq] at hp
      subst hp
      simp only [stepClause, clauseName, checkOrder_And]
      rw [if_neg (by simpa using hnot)]
  case orC ss =>
      have he : legalPreds "Or" = some ["Where", "And", "Or"] := rfl
      rw [clauseName] at hp
      rw [he, Option.some.injEq] at hp
      subst hp
      simp only [stepClause, clauseName, checkOrder_Or]
      rw [if_neg (by simpa using hnot)]
  case innerJoin t =>
      have he : legalPreds "InnerJoin" = some ["From"] := rfl
      rw [clauseName] at hp
      rw [he, Option.some.injEq] at hp
      subst hp
      simp only [stepClause, clauseName, checkOrder_InnerJoin]
      rw [if_neg (by simpa using hnot)]
  case leftJoin t =>
      have he : legalPreds "LeftJoin" = some ["From"] := rfl
      rw [clauseName] at hp
      rw [he, Option.some.injEq] at hp
      subst hp
      simp only [stepClause, clauseName, checkOrder_LeftJoin]
      rw [if_neg (by simpa using hnot)]
  case rightJoin t =>
      have he : legalPreds "RightJoin" = some ["From"] := rfl
      rw [clauseName] at hp
      rw [he, Option.some.injEq] at hp
      subst hp
      simp only [stepClause, clauseName, checkOrder_RightJoin]
      rw [if_neg (by simpa using hnot)]
  case outerJoin t =>
      have he : legalPreds "OuterJoin" = some ["From"] := rfl
      rw [clauseName] at hp
      rw [he, Option.some.injEq] at hp
      subst hp
      simp only [stepClause, clauseName, checkOrder_OuterJoin]
      rw [if_neg (by simpa using hnot)]
  case onC ss =>
      have he : legalPreds "On" = some ["Join"] := rfl
      rw [clauseName] at hp
      rw [he, Option.some.injEq] at hp
      subst hp
      simp only [stepClause, clauseName, checkOrder_On]
      rw [if_neg (by simpa using hnot)]

/-- Witness for C3: `And` directly after `Select` (the unit test's
sequence) is rejected. -/
theorem C3_invalid_order_rejected_witness :
    stepClause (.andC ["Users.id = ?"]) ⟨"Select", [], ["SELECT Users.id"], []⟩ =
      .error .invalidOrder :=
  C3_invalid_order_rejected (.andC ["Users.id = ?"])
    ⟨"Select", [], ["SELECT Users.id"], []⟩ ["Where", "Or", "And"]
    rfl (by decide)

/-- Claim C5 is about code that misbehaves: `DateTimeColumn.validate_type`
evaluates `right.split('-')` on a `Column` operand (the parenthesization
`(A and B) or C` lets the Column case through), raising `AttributeError`
instead of accepting it as the docstring and the spec promise.  The
literal paths behave as claimed: a three-component dash string is
accepted, everything else is rejected with `InvalidTypeError` before any
parameter is pushed. -/
theorem C5_datetime_column_operand_crashes :
    dtValidate (.col usersId) = .error .attributeError ∧
    evalCond (.cmp usersLastLogin .lt (.col usersId)) initCtx =
      .error .attributeError ∧
    evalCond (.cmp usersLastLogin .lt (.lit (.VStr "2012-01-01"))) initCtx =
      .ok ("Users.last_login_time < ?",
        ⟨"", [SqlValue.VStr "2012-01-01"], [], []⟩) ∧
    evalCond (.cmp usersLastLogin .lt (.lit (.VStr "2012"))) initCtx =
      .error .invalidType ∧
    evalCond (.cmp usersLastLogin .lt (.lit (.VInt 5))) initCtx =
      .error .invalidType :=
  ⟨rfl, rfl, rfl, rfl, rfl⟩

/-- Claim C6: on a Text column every ordering comparison fails with
`InvalidTypeError` whatever the operand (`__lt__` raises outright, the
other three raise after their validator), while equal/not-equal succeed
for string literals and for Column operands in every clause state.  The
failures are raises before any mutation, so no fragment is committed and
no parameter is pushed. -/
theorem C6_text_ordering_always_invalid :
    ∀ (tbl nm : String) (rhs : Operand) (ctx : Ctx) (str : String)
      (c2 : Column),
    evalCond (.cmp ⟨tbl, nm, .text⟩ .lt rhs) ctx = .error .invalidType ∧
    evalCond (.cmp ⟨tbl, nm, .text⟩ .le rhs) ctx = .error .invalidType ∧
    evalCond (.cmp ⟨tbl, nm, .text⟩ .gt rhs) ctx = .error .invalidType ∧
    evalCond (.cmp ⟨tbl, nm, .text⟩ .ge rhs) ctx = .error .invalidType ∧
    (∃ out, evalCond (.cmp ⟨tbl, nm, .text⟩ .eq (.lit (.VStr str))) ctx = .ok out) ∧
    (∃ out, evalCond (.cmp ⟨tbl, nm, .text⟩ .ne (.lit (.VStr str))) ctx = .ok out) ∧
    (∃ out, evalCond (.cmp ⟨tbl, nm, .text⟩ .eq (.col c2)) ctx = .ok out) ∧
    (∃ out, evalCond (.cmp ⟨tbl, nm, .text⟩ .ne (.col c2)) ctx = .ok out) := by
  intro tbl nm rhs ctx str c2
  refine ⟨?_, ?_, ?_, ?_, ?_, ?_, ?_, ?_⟩
  · simp [evalCond, evalCmp]
  · rcases rhs with (⟨n⟩ | ⟨s0⟩) | c0 <;> simp [evalCond, evalCmp, strValidate]
  · rcases rhs with (⟨n⟩ | ⟨s0⟩) | c0 <;> simp [evalCond, evalCmp, strValidate]
  · rcases rhs with (⟨n⟩ | ⟨s0⟩) | c0 <;> simp [evalCond, evalCmp, strValidate]
  · by_cases hJ : ctx.lastMethod = "Join"
    · exact ⟨_, by simp [evalCond, evalCmp, strValidate, baseEq, hJ, eqRendered]; try rfl⟩
    · exact ⟨_, by simp [evalCond, evalCmp, strValidate, baseEq, hJ, eqRendered]; try rfl⟩
  · by_cases hJ : ctx.lastMethod = "Join"
    · exact ⟨_, by simp [evalCond, evalCmp, strValidate, baseEq, hJ, eqRendered]; try rfl⟩
    · exact ⟨_, by simp [evalCond, evalCmp, strValidate, baseEq, hJ, eqRendered]; try rfl⟩
  · by_cases hJ : ctx.lastMethod = "Join"
    · exact ⟨_, by simp [evalCond, evalCmp, strValidate, baseEq, hJ, eqRendered]; try rfl⟩
    · exact ⟨_, by simp [evalCond, evalCmp, strValidate, baseEq, hJ, eqRendered]; try rfl⟩
  · by_cases hJ : ctx.lastMethod = "Join"
    · exact ⟨_, by simp [evalCond, evalCmp, strValidate, baseEq, hJ, eqRendered]; try rfl⟩
    · exact ⟨_, by simp [evalCond, evalCmp, strValidate, baseEq, hJ, eqRendered]; try rfl⟩

/-- Claim C7: every statement-opening clause is legal from any state;
`check_order` first clears the accumulated fragments and parameters and
sets the state to the clause's own name, after which only the opener's
own fragment is present (and `Select` records the output column names). -/
theorem C7_openers_reset :
    ∀ (ctx : Ctx) (args : List SelectArg) (t : Table),
    stepClause (.select args) ctx =
      .ok ⟨"Select", [],
        ["SELECT " ++ commaJoin ((flattenSelect args).map colRef)],
        (flattenSelect args).map colRef⟩ ∧
    stepClause .delete ctx = .ok ⟨"Delete", [], ["DELETE "], ctx.selectCols⟩ ∧
    stepClause (.update t) ctx =
      .ok ⟨"Update", [], ["UPDATE " ++ t.getName ++ " SET "], ctx.selectCols⟩ ∧
    stepClause (.insert t) ctx =
      .ok ⟨"Insert", [], ["INSERT INTO " ++ t.getName ++ " "], ctx.selectCols⟩ ∧
    stepClause (.createTable t) ctx =
      .ok ⟨"CreateTable", [],
        ["CREATE TABLE " ++ t.getName ++ " (" ++
          commaJoin (t.cols.map createCol) ++ ")"], ctx.selectCols⟩ ∧
    stepClause (.dropTable t) ctx =
      .ok ⟨"DropTable", [], ["DROP TABLE IF EXISTS " ++ t.getName],
        ctx.selectCols⟩ := by
  intro ctx args t
  refine ⟨?_, ?_, ?_, ?_, ?_, ?_⟩
  · simp [stepClause, clauseName, checkOrder_Select, clauseBody]
  · simp [stepClause, clauseName, checkOrder_Delete, clauseBody]
  · simp [stepClause, clauseName, checkOrder_Update, clauseBody]
  · simp [stepClause, clauseName, checkOrder_Insert, clauseBody]
  · simp [stepClause, clauseName, checkOrder_CreateTable, clauseBody]
  · simp [stepClause, clauseName, checkOrder_DropTable, clauseBody]

/-- Claim C8: `In`/`NotIn` render the literal set inline as a Python
tuple (`str(tuple(arg))`) directly in the condition text and leave the
whole context — in particular the parameter list — untouched; `Values`
renders a parenthesized list inline, single-quoting string values, and
appends nothing to the parameter list. -/
theorem C8_membership_and_values_inline :
    ∀ (c : Column) (vs : List SqlValue) (ctx : Ctx) (str : String),
    evalCond (.inSet c vs) ctx =
      .ok (colRef c ++ " IN " ++ pyTupleRepr vs, ctx) ∧
    evalCond (.notInSet c vs) ctx =
      .ok (colRef c ++ " NOT IN " ++ pyTupleRepr vs, ctx) ∧
    stepClause (.values vs) ctx =
      .ok ⟨ctx.lastMethod, ctx.data,
        ctx.sql ++ ["VALUES (" ++ commaJoin (vs.map valuesItem) ++ ")"],
        ctx.selectCols⟩ ∧
    valuesItem (.VStr str) =
      String.singleton squoteCh ++ str ++ String.singleton squoteCh := by
  intro c vs ctx str
  refine ⟨rfl, rfl, ?_, rfl⟩
  simp [stepClause, clauseName, checkOrder_Values, clauseBody]

/-- The `Update`-then-`Set` run of the unit test, stopping after `Set`. -/
def c9run : Except PyErr Ctx :=
  runFluent [.update usersTable,
    .setC [.cmp usersLogin .eq (.lit (.VStr "Mark"))]] initCtx

/-- Counterexample to C9 as stated: `check_order` has no branch for
`Set`, so after `Update(users).Set(login == 'Mark')` the machine's state
is still `"Update"`, not `"Set"`. -/
theorem C9_set_state_counterexample :
    c9run = .ok ⟨"Update", [SqlValue.VStr "Mark"],
      ["UPDATE users SET ", "login = ?"], []⟩ ∧
    ("Update" : String) ≠ "Set" :=
  ⟨rfl, by decide⟩

/-- Claim C9 (amended): a `Set` call never changes the order-machine
state (no `check_order` branch matches it), and `Where` is nonetheless
legal immediately after `Update(...).Set(...)` because the state is still
`Update`, which is in `Where`'s predecessor set {From, Set, Update}; the
listed state `Set` itself is never entered. -/
theorem C9_set_keeps_state_where_legal :
    ∀ (ctx : Ctx) (ss ws : List String) (t : Table),
    stepClause (.setC ss) ctx =
      .ok ⟨ctx.lastMethod, ctx.data, ctx.sql ++ [commaJoin ss],
        ctx.selectCols⟩ ∧
    (do
      let a ← stepClause (.update t) ctx
      let b ← stepClause (.setC ss) a
      stepClause (.whereC ws) b) =
      .ok ⟨"Where", [],
        ["UPDATE " ++ t.getName ++ " SET ", commaJoin ss,
         " WHERE " ++ joinS ws], ctx.selectCols⟩ := by
  intro ctx ss ws t
  constructor
  · simp [stepClause, clauseName, checkOrder_Set, clauseBody]
  · simp [stepClause, clauseName, checkOrder_Update, checkOrder_Set,
      checkOrder_Where, clauseBody, bind, Except.bind]

/-- Claim C10: the membership forms never validate and never raise
`InvalidTypeError` — they succeed for every column kind, every clause
state and every value sequence (here in particular a Text column with a
numeric set), and a one-element sequence renders in Python's
trailing-comma tuple form. -/
theorem C10_membership_bypasses_validation :
    ∀ (c : Column) (vs : List SqlValue) (ctx : Ctx) (v : SqlValue)
      (tbl nm : String),
    evalCond (.inSet c vs) ctx =
      .ok (colRef c ++ " IN " ++ pyTupleRepr vs, ctx) ∧
    evalCond (.notInSet c vs) ctx =
      .ok (colRef c ++ " NOT IN " ++ pyTupleRepr vs, ctx) ∧
    pyTupleRepr [v] = "(" ++ pyRepr v ++ ",)" ∧
    pyTupleRepr [.VInt 1, .VInt 2] = "(1, 2)" ∧
    evalCond (.inSet ⟨tbl, nm, .text⟩ [.VInt 1, .VInt 2]) ctx =
      .ok (tbl ++ "." ++ nm ++ " IN " ++ pyTupleRepr [.VInt 1, .VInt 2], ctx) := by
  intro c vs ctx v tbl nm
  exact ⟨rfl, rfl, rfl, by decide, rfl⟩
